import Mathlib

/-!
Verification development for the `mursten` game-loop core
(source: src/src/lib.rs).

The development shallowly embeds the core of the library:

* the 2-D affine transform and points (the nalgebra `Transform2<f32>` /
  `Point2<f32>` collaborators, modelled exactly over `ℚ`),
* the `DrawPrimitives` / `Graphics` call interface as a type of draw
  calls, a drawing target as a state machine over such calls, and the
  `PushTransform` proxy as the per-call coordinate mapping it performs
  (src/src/lib.rs lines 145-195),
* the derived shape methods `square`, `rectangle`, `square_centered`
  (src/src/lib.rs lines 127-140),
* the `NullBackend` with its `run` loop and `quit` operation
  (src/src/lib.rs lines 60-92), with a fuel parameter standing for the
  number of loop iterations the `while` loop is allowed to take
  (`none` = the loop has not terminated within the fuel),
* the generic `Backend::run` state machine and the
  `UpdateChain`/`RenderChain` containers, which have no implementation
  in src/ and are modelled from the specification.
-/

namespace Mursten

/-- A 2-D vector with rational coordinates, modelling nalgebra
`Vector2<f32>` with exact arithmetic in place of `f32`. -/
structure Vector2 where
  x : ℚ
  y : ℚ
deriving DecidableEq, Repr

/-- A 2-D point with rational coordinates, modelling nalgebra
`Point2<f32>` with exact arithmetic in place of `f32`. -/
structure Point2 where
  x : ℚ
  y : ℚ
deriving DecidableEq, Repr

instance : HAdd Point2 Vector2 Point2 :=
  ⟨fun p v => ⟨p.x + v.x, p.y + v.y⟩⟩

instance : HSub Point2 Vector2 Point2 :=
  ⟨fun p v => ⟨p.x - v.x, p.y - v.y⟩⟩

theorem Point2.add_def (p : Point2) (v : Vector2) :
    p + v = Point2.mk (p.x + v.x) (p.y + v.y) := rfl

theorem Point2.sub_def (p : Point2) (v : Vector2) :
    p - v = Point2.mk (p.x - v.x) (p.y - v.y) := rfl

/-- A 2-D affine transform (linear part plus translation), modelling the
nalgebra `Transform2<f32>` collaborator as the spec describes it: "a 2D
affine map (rotation + scale + translation) over points". -/
structure Affine2 where
  a11 : ℚ
  a12 : ℚ
  a21 : ℚ
  a22 : ℚ
  tx : ℚ
  ty : ℚ
deriving DecidableEq, Repr

/-- Action of a transform on a point, modelling `transform * point`. -/
def Affine2.apply (t : Affine2) (p : Point2) : Point2 :=
  ⟨t.a11 * p.x + t.a12 * p.y + t.tx, t.a21 * p.x + t.a22 * p.y + t.ty⟩

/-- The identity transform. -/
def Affine2.ident : Affine2 := ⟨1, 0, 0, 1, 0, 0⟩

/-- Composition of transforms, modelling `t1 * t2` (apply `t2` first,
then `t1`). -/
def Affine2.comp (t1 t2 : Affine2) : Affine2 :=
  ⟨t1.a11 * t2.a11 + t1.a12 * t2.a21,
   t1.a11 * t2.a12 + t1.a12 * t2.a22,
   t1.a21 * t2.a11 + t1.a22 * t2.a21,
   t1.a21 * t2.a12 + t1.a22 * t2.a22,
   t1.a11 * t2.tx + t1.a12 * t2.ty + t1.tx,
   t1.a21 * t2.tx + t1.a22 * t2.ty + t1.ty⟩

theorem Affine2.apply_comp (t1 t2 : Affine2) (p : Point2) :
    (t1.comp t2).apply p = t1.apply (t2.apply p) := by
  simp only [Affine2.apply, Affine2.comp, Point2.mk.injEq]
  constructor <;> ring

theorem Affine2.apply_ident (p : Point2) : Affine2.ident.apply p = p := by
  simp only [Affine2.apply, Affine2.ident]
  cases p with
  | mk x y => simp only [Point2.mk.injEq]; constructor <;> ring

theorem Affine2.ident_apply_eq_id : Affine2.ident.apply = id :=
  funext Affine2.apply_ident

/-- A color argument, modelling the `Color` capability (`into_rgba`)
of src/src/lib.rs lines 106-108. -/
structure Rgba where
  r : ℚ
  g : ℚ
  b : ℚ
  a : ℚ
deriving DecidableEq, Repr

/-- Draw mode, translated from `enum DrawMode` (src/src/lib.rs
lines 110-113). -/
inductive DrawMode where
  | line (width : ℚ) : DrawMode
  | fill : DrawMode
deriving DecidableEq, Repr

/-- One call of the `Graphics` / `DrawPrimitives` interfaces
(src/src/lib.rs lines 115-126 and 141), with each method of the traits
as one constructor carrying the method's arguments. -/
inductive DrawCall where
  | clear (color : Rgba) : DrawCall
  | present : DrawCall
  | set_color (color : Rgba) : DrawCall
  | circle (mode : DrawMode) (origin : Point2) (radius : ℚ) : DrawCall
  | ellipse (mode : DrawMode) (origin : Point2) (width height : ℚ) : DrawCall
  | line (origin target : Point2) (width : ℚ) : DrawCall
  | polygon (mode : DrawMode) (points : List Point2) : DrawCall
  | text (position : Point2) (s : String) : DrawCall
deriving DecidableEq, Repr

/-- A drawing target: a state machine consuming draw calls.  A Rust
`Scr : DrawPrimitives` value is a stateful object whose methods mutate
it; here its state has type `σ` and each method call steps the state. -/
structure Target (σ : Type) where
  step : σ → DrawCall → σ

/-- How `PushTransform` rewrites one incoming call before forwarding it
to the wrapped target, translated method by method from
`impl Graphics for PushTransform` (src/src/lib.rs lines 159-169) and
`impl DrawPrimitives for PushTransform` (lines 171-195): `clear`,
`present` and `set_color` forward their argument unchanged; `circle`,
`ellipse` and `text` map their one point through the stored transform;
`line` maps both endpoints; `polygon` maps every vertex in order. -/
def PushTransform.mapCall (t : Affine2) : DrawCall → DrawCall
  | .clear color => .clear color
  | .present => .present
  | .set_color color => .set_color color
  | .circle mode origin radius => .circle mode (t.apply origin) radius
  | .ellipse mode origin width height => .ellipse mode (t.apply origin) width height
  | .line origin target width => .line (t.apply origin) (t.apply target) width
  | .polygon mode points => .polygon mode (points.map t.apply)
  | .text position s => .text (t.apply position) s

/-- The `PushTransform` proxy as a drawing target: it holds a mutable
reference to a downstream target `tgt` plus a transform `t`
(src/src/lib.rs lines 145-157), and each call on it is one call on
`tgt` with the points rewritten by `mapCall`. -/
def PushTransform.wrap {σ : Type} (t : Affine2) (tgt : Target σ) : Target σ :=
  ⟨fun s c => tgt.step s (PushTransform.mapCall t c)⟩

/-- A recording drawing target: its state is the list of calls it has
received, in order. -/
def recorder : Target (List DrawCall) :=
  ⟨fun log c => log ++ [c]⟩

/-- `nest [t1, t2, ..., tk] tgt` is the proxy stack
`PushTransform t1 (PushTransform t2 (... (PushTransform tk tgt)))`:
drawing happens on the outermost listed layer, whose transform `t1`
is applied first, and `tk` is applied last, closest to `tgt`. -/
def nest {σ : Type} (ts : List Affine2) (tgt : Target σ) : Target σ :=
  ts.foldr PushTransform.wrap tgt

/-- `composeAll [t1, ..., tk]` is `tk * (... * (t2 * t1))`: the single
transform whose action applies `t1` first and `tk` last. -/
def composeAll : List Affine2 → Affine2
  | [] => Affine2.ident
  | t :: rest => (composeAll rest).comp t

theorem PushTransform.mapCall_ident (c : DrawCall) :
    PushTransform.mapCall Affine2.ident c = c := by
  cases c <;> simp [PushTransform.mapCall, Affine2.apply_ident, Affine2.ident_apply_eq_id, List.map_id]

theorem PushTransform.mapCall_comp (t1 t2 : Affine2) (c : DrawCall) :
    PushTransform.mapCall t1 (PushTransform.mapCall t2 c)
      = PushTransform.mapCall (t1.comp t2) c := by
  cases c <;> simp [PushTransform.mapCall, Affine2.apply_comp, List.map_map, Function.comp_def]

theorem nest_step {σ : Type} (ts : List Affine2) (tgt : Target σ) (s : σ)
    (c : DrawCall) :
    (nest ts tgt).step s c = tgt.step s (PushTransform.mapCall (composeAll ts) c) := by
  induction ts generalizing c with
  | nil => simp [nest, composeAll, PushTransform.mapCall_ident]
  | cons t rest ih =>
      simp only [nest, List.foldr_cons, composeAll]
      show (nest rest tgt).step s (PushTransform.mapCall t c) = _
      rw [ih, PushTransform.mapCall_comp]

/-- The default method `DrawPrimitives::rectangle` (src/src/lib.rs
lines 130-137): one `polygon` call on `self` with the four corners
listed clockwise from `up_left`. -/
def rectangleCall (mode : DrawMode) (up_left : Point2) (width height : ℚ) : DrawCall :=
  .polygon mode [up_left,
    up_left + Vector2.mk width 0,
    up_left + Vector2.mk width height,
    up_left + Vector2.mk 0 height]

/-- The default method `DrawPrimitives::square` (src/src/lib.rs
lines 127-129): `self.rectangle(mode, up_left, width, width)`. -/
def squareCall (mode : DrawMode) (up_left : Point2) (width : ℚ) : DrawCall :=
  rectangleCall mode up_left width width

/-- The default method `DrawPrimitives::square_centered` (src/src/lib.rs
lines 138-140): `self.square(mode, center - Vector2::new(width/2, width/2), width)`. -/
def squareCenteredCall (mode : DrawMode) (center : Point2) (width : ℚ) : DrawCall :=
  squareCall mode (center - Vector2.mk (width / 2) (width / 2)) width

/-- The backend state `NullBackend` (src/src/lib.rs lines 60-63):
a `must_quit` flag and an unused `Option<Scn>` payload. -/
structure NullBackend (Scn : Type) where
  must_quit : Bool
  data : Option Scn

/-- `NullBackend::new` (src/src/lib.rs lines 66-68). -/
def NullBackend.new {Scn : Type} : NullBackend Scn := ⟨false, none⟩

/-- `NullBackend::quit` (src/src/lib.rs lines 89-91): sets `must_quit`. -/
def NullBackend.quit {Scn : Type} (b : NullBackend Scn) : NullBackend Scn :=
  ⟨true, b.data⟩

/-- `NullBackend::run` (src/src/lib.rs lines 76-88), with the scene's
`Update<()>` capability as the function `update` (the scene mutated via
`&mut self`; the `&mut ()` context carries no information) and the
scene's `Draw<()>` capability leaving the scene unchanged (it takes
`&self`) and writing to the unit screen.  `self` is taken by value and
never written, so every read of `self.must_quit` sees the entry value.
`fuel` bounds the number of `while` iterations; `none` means the loop
has not terminated within `fuel` iterations. -/
def NullBackend.run {Scn : Type} (update : Scn → Scn) (b : NullBackend Scn) :
    Nat → Scn → Option Scn
  | fuel, scene =>
    if b.must_quit then some scene
    else
      match fuel with
      | 0 => none
      | fuel' + 1 =>
          let scene' := update scene
          if b.must_quit then some scene'
          else NullBackend.run update b fuel' scene'

/-- One observable event of the `NullBackend::run` loop body:
`scene.update(&mut ())` or `scene.draw(&mut ())`. -/
inductive LoopEvt where
  | upd : LoopEvt
  | drw : LoopEvt
deriving DecidableEq, Repr

/-- `NullBackend::run` instrumented with the list of `update`/`draw`
calls the loop performs, in order; the same control flow as
`NullBackend.run` (src/src/lib.rs lines 76-88). -/
def NullBackend.runTrace {Scn : Type} (update : Scn → Scn) (b : NullBackend Scn) :
    Nat → Scn → Option (Scn × List LoopEvt)
  | fuel, scene =>
    if b.must_quit then some (scene, [])
    else
      match fuel with
      | 0 => none
      | fuel' + 1 =>
          let scene' := update scene
          if b.must_quit then some (scene', [LoopEvt.upd])
          else
            match NullBackend.runTrace update b fuel' scene' with
            | none => none
            | some (t, tr) => some (t, LoopEvt.upd :: LoopEvt.drw :: tr)

/-- The only operation of the core that takes the backend by mutable
reference: `Backend::quit` (src/src/lib.rs line 56; `run` and
`Game::run` consume the backend by value). -/
inductive CoreOp where
  | quit : CoreOp
deriving DecidableEq, Repr

/-- Apply one core operation to a `NullBackend`. -/
def applyOp {Scn : Type} (b : NullBackend Scn) : CoreOp → NullBackend Scn
  | .quit => b.quit

/-- Apply a sequence of core operations, first to last. -/
def applyOps {Scn : Type} (b : NullBackend Scn) (ops : List CoreOp) : NullBackend Scn :=
  ops.foldl applyOp b

/-- One phase of a loop iteration of the generic backend state machine:
the update chain pass (phase A) or the render chain pass (phase B). -/
inductive Phase where
  | update : Phase
  | render : Phase
deriving DecidableEq, Repr

/-- Modelled from the spec: the `Backend::run` state machine of §4.2.
Only the trait declaration of `Backend` is in src/ (src/src/lib.rs
lines 46-57); no implementation in src/ lets an updater reach the quit
signal (the reference `NullBackend` passes a `&mut ()` context), so the
general loop, in which "quit became set during phase A" is possible, is
modelled here from the spec's words: while quit is not set, run the full
update chain once (phase A); if quit became set during phase A,
transition directly to Terminated without running phase B; otherwise run
the full render chain once (phase B) and remain in Running; on
Terminated the final scene is returned.  `update` performs one full
phase-A pass and reports the scene together with the quit flag as it
stands afterwards; phase B reads the scene and cannot touch the flag.
The result pairs the final scene with the trace of executed phases,
each tagged with its iteration number `n`; `none` means the loop has
not terminated within `fuel` iterations. -/
def backendRun {Scn : Type} (update : Scn → Scn × Bool) :
    Nat → Nat → Bool → Scn → Option (Scn × List (Nat × Phase))
  | 0, _, q, s => if q then some (s, []) else none
  | fuel + 1, n, q, s =>
    if q then some (s, [])
    else
      let r := update s
      if r.2 then some (r.1, [(n, Phase.update)])
      else
        match backendRun update fuel (n + 1) false r.1 with
        | none => none
        | some (t, tr) => some (t, (n, Phase.update) :: (n, Phase.render) :: tr)

/-- The scene as it stands when iteration `j` of `backendRun` begins
(counting from the iteration in which `scene` is current): scene `0` is
`scene` itself and each following iteration applies one phase-A pass. -/
def sceneAt {Scn : Type} (update : Scn → Scn × Bool) : Nat → Scn → Scn
  | 0, s => s
  | j + 1, s => sceneAt update j (update s).1

/-- Modelled from the spec: `UpdateChain` (§4.1), an insertion-ordered
`Vec<Box<dyn Updater>>`-equivalent.  No chain type is present in src/;
the spec's updater takes `(mutable Context, mutable Scene)`, embedded
here as a state transformer on the pair. -/
structure UpdateChain (Ctx Scn : Type) where
  items : List (Ctx → Scn → Ctx × Scn)

/-- Modelled from the spec: `UpdateChain::add` appends the capability at
the end of the ordered sequence. -/
def UpdateChain.add {Ctx Scn : Type} (c : UpdateChain Ctx Scn)
    (u : Ctx → Scn → Ctx × Scn) : UpdateChain Ctx Scn :=
  ⟨c.items ++ [u]⟩

/-- The empty update chain. -/
def UpdateChain.empty {Ctx Scn : Type} : UpdateChain Ctx Scn := ⟨[]⟩

/-- Modelled from the spec: `UpdateChain::update(context, scene)` runs
every held capability in insertion order, threading the one context and
the one scene through all of them. -/
def UpdateChain.update {Ctx Scn : Type} (c : UpdateChain Ctx Scn)
    (ctx : Ctx) (scn : Scn) : Ctx × Scn :=
  c.items.foldl (fun p u => u p.1 p.2) (ctx, scn)

/-- Modelled from the spec: `RenderChain` (§4.1); the spec's renderer
takes `(mutable Screen, read-only Scene)`, embedded as a state
transformer on the screen that reads the scene. -/
structure RenderChain (Scr Scn : Type) where
  items : List (Scr → Scn → Scr)

/-- Modelled from the spec: `RenderChain::add` appends the capability at
the end of the ordered sequence. -/
def RenderChain.add {Scr Scn : Type} (c : RenderChain Scr Scn)
    (r : Scr → Scn → Scr) : RenderChain Scr Scn :=
  ⟨c.items ++ [r]⟩

/-- The empty render chain. -/
def RenderChain.empty {Scr Scn : Type} : RenderChain Scr Scn := ⟨[]⟩

/-- Modelled from the spec: `RenderChain::render(screen, scene)` runs
every held capability in insertion order, threading the one screen and
passing the same read-only scene to each. -/
def RenderChain.render {Scr Scn : Type} (c : RenderChain Scr Scn)
    (scr : Scr) (scn : Scn) : Scr :=
  c.items.foldl (fun s r => r s scn) scr

/-- An updater that appends the marker `m` to a log kept in the context
and leaves the scene alone (the spec's §8 "Order preservation" probe). -/
def markerUpdater {α Scn : Type} (m : α) : List α → Scn → List α × Scn :=
  fun log s => (log ++ [m], s)

/-- The update chain built by one `add` call per marker, in list order. -/
def updateChainOf {α Scn : Type} (ms : List α) : UpdateChain (List α) Scn :=
  ms.foldl (fun c m => c.add (markerUpdater m)) UpdateChain.empty

/-- A renderer that appends the marker `m` to a log kept in the screen. -/
def markerRenderer {α Scn : Type} (m : α) : List α → Scn → List α :=
  fun log _ => log ++ [m]

/-- The render chain built by one `add` call per marker, in list order. -/
def renderChainOf {α Scn : Type} (ms : List α) : RenderChain (List α) Scn :=
  ms.foldl (fun c m => c.add (markerRenderer m)) RenderChain.empty

theorem updateChainOf_items {α Scn : Type} (ms : List α)
    (c : UpdateChain (List α) Scn) :
    (ms.foldl (fun c m => c.add (markerUpdater m)) c).items
      = c.items ++ ms.map (@markerUpdater α Scn) := by
  induction ms generalizing c with
  | nil => simp
  | cons m rest ih =>
      rw [List.foldl_cons, ih]
      simp [UpdateChain.add]

theorem renderChainOf_items {α Scn : Type} (ms : List α)
    (c : RenderChain (List α) Scn) :
    (ms.foldl (fun c m => c.add (markerRenderer m)) c).items
      = c.items ++ ms.map (@markerRenderer α Scn) := by
  induction ms generalizing c with
  | nil => simp
  | cons m rest ih =>
      rw [List.foldl_cons, ih]
      simp [RenderChain.add]

theorem markerUpdater_fold {α Scn : Type} (ms : List α) (log : List α)
    (scn : Scn) :
    (ms.map (@markerUpdater α Scn)).foldl (fun p u => u p.1 p.2) (log, scn)
      = (log ++ ms, scn) := by
  induction ms generalizing log with
  | nil => simp
  | cons m rest ih => simp [markerUpdater, ih]

theorem markerRenderer_fold {α Scn : Type} (ms : List α) (scr : List α)
    (scn : Scn) :
    (ms.map (@markerRenderer α Scn)).foldl (fun s r => r s scn) scr
      = scr ++ ms := by
  induction ms generalizing scr with
  | nil => simp
  | cons m rest ih => simp [markerRenderer, ih]

theorem applyOps_must_quit_mono {Scn : Type} (b : NullBackend Scn)
    (ops : List CoreOp) (h : b.must_quit = true) :
    (applyOps b ops).must_quit = true := by
  induction ops generalizing b with
  | nil => simpa [applyOps] using h
  | cons op rest ih =>
      cases op
      exact ih b.quit rfl

/-- C1: for every scene, `NullBackend::run` terminates whenever the quit
signal is set (`must_quit` is constant throughout `run`, so set means
set at entry) and returns the terminal scene; its only outcome is a
scene — the model's `none` stands for the loop not having terminated,
there is no failure value. -/
theorem nullbackend_run_quit_terminates {Scn : Type} (update : Scn → Scn)
    (b : NullBackend Scn) (fuel : Nat) (scene : Scn)
    (h : b.must_quit = true) :
    NullBackend.run update b fuel scene = some scene := by
  cases fuel <;> simp [NullBackend.run, h]

theorem nullbackend_run_quit_terminates_witness :
    NullBackend.run Nat.succ ⟨true, (none : Option Nat)⟩ 5 7 = some 7 :=
  nullbackend_run_quit_terminates Nat.succ ⟨true, none⟩ 5 7 rfl

/-- C2: in every iteration of the generic backend loop, the update phase
executes strictly before the render phase of that same iteration
(every recorded render of iteration `m` is immediately preceded by the
update of iteration `m`), and if quit became set during the update
phase of an iteration, that iteration's render phase is not in the
trace at all. -/
theorem backend_run_update_before_render {Scn : Type}
    (update : Scn → Scn × Bool) (fuel n : Nat) (scene s : Scn)
    (tr : List (Nat × Phase))
    (h : backendRun update fuel n false scene = some (s, tr)) :
    (∀ m, (m, Phase.render) ∈ tr →
        ∃ l1 l2, tr = l1 ++ (m, Phase.update) :: (m, Phase.render) :: l2)
    ∧ (∀ j, (update (sceneAt update j scene)).2 = true →
        (n + j, Phase.render) ∉ tr) := by
  induction fuel generalizing n scene tr with
  | zero => simp [backendRun] at h
  | succ fuel ih =>
      rw [backendRun] at h
      simp only [Bool.false_eq_true, if_false] at h
      by_cases hq : (update scene).2 = true
      · rw [if_pos hq] at h
        simp only [Option.some.injEq, Prod.mk.injEq] at h
        obtain ⟨-, htr⟩ := h
        subst htr
        constructor
        · intro m hm
          simp [Prod.ext_iff] at hm
        · intro j _ hmem
          simp [Prod.ext_iff] at hmem
      · rw [if_neg hq] at h
        cases hrec : backendRun update fuel (n + 1) false (update scene).1 with
        | none => rw [hrec] at h; simp at h
        | some p =>
            obtain ⟨t, tr'⟩ := p
            rw [hrec] at h
            simp only [Option.some.injEq, Prod.mk.injEq] at h
            obtain ⟨hts, htr⟩ := h
            subst htr
            rw [hts] at hrec
            have IH := ih (n + 1) (update scene).1 tr' hrec
            constructor
            · intro m hm
              rcases List.mem_cons.mp hm with hm1 | hm2
              · exact absurd hm1 (by simp [Prod.ext_iff])
              · rcases List.mem_cons.mp hm2 with hm3 | hm4
                · refine ⟨[], tr', ?_⟩
                  have hmn : m = n := congrArg Prod.fst hm3
                  subst hmn
                  simp
                · obtain ⟨l1, l2, hl⟩ := IH.1 m hm4
                  exact ⟨(n, Phase.update) :: (n, Phase.render) :: l1, l2,
                    by simp [hl]⟩
            · intro j hj hmem
              cases j with
              | zero => exact hq (by simpa [sceneAt] using hj)
              | succ j' =>
                  have hj' : (update (sceneAt update j' (update scene).1)).2
                      = true := by simpa [sceneAt] using hj
                  have hnot := IH.2 j' hj'
                  rcases List.mem_cons.mp hmem with hm1 | hm2
                  · exact absurd hm1 (by simp [Prod.ext_iff])
                  · rcases List.mem_cons.mp hm2 with hm3 | hm4
                    · have : n + (j' + 1) = n := congrArg Prod.fst hm3
                      omega
                    · have heq : n + (j' + 1) = n + 1 + j' := by omega
                      rw [heq] at hm4
                      exact hnot hm4

theorem backend_run_update_before_render_witness :
    ((0 : Nat) + 1, Phase.render) ∉
      [((0 : Nat), Phase.update), (0, Phase.render), (1, Phase.update)] :=
  (backend_run_update_before_render (fun k => (k + 1, decide (k = 1)))
    4 0 0 2 [(0, Phase.update), (0, Phase.render), (1, Phase.update)]
    (by decide)).2 1 (by decide)

/-- C3: an `UpdateChain` (resp. `RenderChain`) built by one `add` call
per marker, invoked once, runs every held capability exactly once and
strictly in insertion order: the one threaded context (resp. screen)
log gains exactly the markers, in registration order, with no entry
skipped or duplicated. -/
theorem chain_invokes_in_insertion_order {α Scn Scn2 : Type} (ms : List α)
    (log : List α) (scn : Scn) (scr : List α) (scn2 : Scn2) :
    (@updateChainOf α Scn ms).update log scn = (log ++ ms, scn)
    ∧ (@renderChainOf α Scn2 ms).render scr scn2 = scr ++ ms := by
  constructor
  · show ((@updateChainOf α Scn ms).items.foldl (fun p u => u p.1 p.2)
      (log, scn)) = (log ++ ms, scn)
    rw [updateChainOf, updateChainOf_items]
    simpa [UpdateChain.empty] using markerUpdater_fold ms log scn
  · show ((@renderChainOf α Scn2 ms).items.foldl (fun s r => r s scn2)
      scr) = scr ++ ms
    rw [renderChainOf, renderChainOf_items]
    simpa [RenderChain.empty] using markerRenderer_fold ms scr scn2

/-- C4: each coordinate-bearing primitive on a `PushTransform` wrapping
a recording target forwards exactly one call in which every point
argument has been mapped through the stored transform and every other
argument is unmodified: `circle`, `ellipse` and `text` map their one
point, `line` maps both endpoints, `polygon` maps every vertex
individually with vertex order and draw mode preserved. -/
theorem pushtransform_maps_points (t : Affine2) (mode : DrawMode)
    (o q : Point2) (radius w h : ℚ) (ps : List Point2) (pos : Point2)
    (s : String) (log : List DrawCall) :
    (PushTransform.wrap t recorder).step log (.circle mode o radius)
        = log ++ [.circle mode (t.apply o) radius]
    ∧ (PushTransform.wrap t recorder).step log (.ellipse mode o w h)
        = log ++ [.ellipse mode (t.apply o) w h]
    ∧ (PushTransform.wrap t recorder).step log (.line o q w)
        = log ++ [.line (t.apply o) (t.apply q) w]
    ∧ (PushTransform.wrap t recorder).step log (.polygon mode ps)
        = log ++ [.polygon mode (ps.map t.apply)]
    ∧ (PushTransform.wrap t recorder).step log (.text pos s)
        = log ++ [.text (t.apply pos) s] :=
  ⟨rfl, rfl, rfl, rfl, rfl⟩

/-- C5: drawing any call through a `PushTransform` with transform `t2`
whose wrapped target is a `PushTransform` with transform `t1` over a
recording target records the same call as a single `PushTransform` with
the composed transform `t1 * t2`; across `N` nested layers the net
effect equals one proxy carrying the composition of the layers'
transforms, applied from the drawn-on (innermost) layer outward. -/
theorem pushtransform_nesting_composes (t1 t2 : Affine2)
    (ts : List Affine2) (c : DrawCall) (log : List DrawCall) :
    (PushTransform.wrap t2 (PushTransform.wrap t1 recorder)).step log c
        = (PushTransform.wrap (t1.comp t2) recorder).step log c
    ∧ (nest ts recorder).step log c
        = (PushTransform.wrap (composeAll ts) recorder).step log c := by
  constructor
  · show recorder.step log
      (PushTransform.mapCall t1 (PushTransform.mapCall t2 c)) = _
    rw [PushTransform.mapCall_comp]
    rfl
  · rw [nest_step]
    rfl

/-- C6: the non-coordinate operations `clear`, `present` and
`set_color` pass through any stack of `PushTransform` proxies to the
wrapped target exactly once, with their arguments unmodified and no
coordinate transformation applied, regardless of nesting depth. -/
theorem pushtransform_neutral_passthrough (ts : List Affine2) (col : Rgba)
    (log : List DrawCall) :
    (nest ts recorder).step log (.clear col) = log ++ [.clear col]
    ∧ (nest ts recorder).step log .present = log ++ [.present]
    ∧ (nest ts recorder).step log (.set_color col) = log ++ [.set_color col] := by
  refine ⟨?_, ?_, ?_⟩ <;> rw [nest_step] <;> rfl

/-- C7: the convenience shapes decompose into the `polygon` primitive
exactly as the default trait methods do — `rectangle` is one `polygon`
call on the four corners, `square` is `rectangle` with equal sides,
`square_centered` is `square` at `center - (w/2, w/2)` — and drawn
through a `PushTransform` every one of their vertices is mapped by the
stored transform. -/
theorem derived_shapes_decompose (mode : DrawMode) (up_left center : Point2)
    (w h : ℚ) (t : Affine2) (log : List DrawCall) :
    rectangleCall mode up_left w h
        = DrawCall.polygon mode [up_left, up_left + Vector2.mk w 0,
            up_left + Vector2.mk w h, up_left + Vector2.mk 0 h]
    ∧ squareCall mode up_left w = rectangleCall mode up_left w w
    ∧ squareCenteredCall mode center w
        = squareCall mode (center - Vector2.mk (w / 2) (w / 2)) w
    ∧ (PushTransform.wrap t recorder).step log (rectangleCall mode up_left w h)
        = log ++ [DrawCall.polygon mode
            ([up_left, up_left + Vector2.mk w 0, up_left + Vector2.mk w h,
              up_left + Vector2.mk 0 h].map t.apply)]
    ∧ (PushTransform.wrap t recorder).step log (squareCenteredCall mode center w)
        = log ++ [DrawCall.polygon mode
            ([center - Vector2.mk (w / 2) (w / 2),
              center - Vector2.mk (w / 2) (w / 2) + Vector2.mk w 0,
              center - Vector2.mk (w / 2) (w / 2) + Vector2.mk w w,
              center - Vector2.mk (w / 2) (w / 2) + Vector2.mk 0 w].map t.apply)] :=
  ⟨rfl, rfl, rfl, rfl, rfl⟩

/-- C8: after any sequence of core operations containing a `quit`, the
`must_quit` flag is set; no core operation ever clears it (once true it
stays true under every further sequence); and `quit` is idempotent —
quitting twice equals quitting once. -/
theorem quit_sticky_and_idempotent {Scn : Type} (b : NullBackend Scn)
    (ops : List CoreOp) :
    (CoreOp.quit ∈ ops → (applyOps b ops).must_quit = true)
    ∧ (b.must_quit = true → (applyOps b ops).must_quit = true)
    ∧ b.quit.quit = b.quit := by
  refine ⟨?_, applyOps_must_quit_mono b ops, rfl⟩
  intro hmem
  cases ops with
  | nil => simp at hmem
  | cons op rest =>
      cases op
      exact applyOps_must_quit_mono b.quit rest rfl

theorem quit_sticky_and_idempotent_witness :
    (applyOps (NullBackend.mk false (none : Option Nat))
      [CoreOp.quit]).must_quit = true :=
  (quit_sticky_and_idempotent ⟨false, none⟩ [CoreOp.quit]).1 (by decide)

/-- C9: if `must_quit` is false at entry then `NullBackend::run` never
returns at all — `self` is taken by value and never written, so every
read of the flag inside the loop sees the entry value, and in
particular the mid-iteration early-return branch is never taken (were
it taken, the run would produce a `some` result). -/
theorem nullbackend_run_flag_constant {Scn : Type} (update : Scn → Scn)
    (b : NullBackend Scn) (fuel : Nat) (scene : Scn)
    (h : b.must_quit = false) :
    NullBackend.runTrace update b fuel scene = none := by
  induction fuel generalizing scene with
  | zero => simp [NullBackend.runTrace, h]
  | succ fuel ih => simp [NullBackend.runTrace, h, ih]

theorem nullbackend_run_flag_constant_witness :
    NullBackend.runTrace Nat.succ ⟨false, (none : Option Nat)⟩ 3 0 = none :=
  nullbackend_run_flag_constant Nat.succ ⟨false, none⟩ 3 0 rfl

/-- C10: if `quit` was called before `run` (`must_quit` true at entry),
`run` returns the initial scene immediately and unchanged, invoking
neither `update` nor `draw`: the event trace is empty. -/
theorem nullbackend_run_quit_entry_initial {Scn : Type} (update : Scn → Scn)
    (b : NullBackend Scn) (fuel : Nat) (scene : Scn)
    (h : b.must_quit = true) :
    NullBackend.runTrace update b fuel scene = some (scene, []) := by
  cases fuel <;> simp [NullBackend.runTrace, h]

theorem nullbackend_run_quit_entry_initial_witness :
    NullBackend.runTrace Nat.succ ⟨true, (none : Option Nat)⟩ 5 7
      = some (7, []) :=
  nullbackend_run_quit_entry_initial Nat.succ ⟨true, none⟩ 5 7 rfl

end Mursten
